import Mathlib

/-!
Verification of the spam-classifier component.

The development shallowly embeds the Rust sources:

* `src/classifier.rs` — `Counter` packing, `ClassifierStats`, the Naive
  Bayes classifier (`classify`, `classify_detailed`);
* `src/bin/train.rs` — the trainer accumulation and store build;
* `src/lib.rs` and `src/helpers/mod.rs` — the serving boundary
  (`Settings::new`, the `run` wrapper).

Machine integers (`u32`, `u64`) are embedded as `Nat` with explicit
`% 2 ^ 32` where the code can wrap.  `f32` arithmetic is embedded in exact
arithmetic over `ℚ`, with IEEE special values (`+inf`, `-inf`, `NaN`)
represented explicitly: linear-domain values live in `Fv`, and log-domain
values (which are always logarithms of rationals in this program) live in
`Lv`, where `Lv.lnOf q` stands for `ln q` (so `Lv.lnOf 0` is `-inf`).
This captures the structure and the special-value behaviour of the float
computation while idealising away rounding error.

External collaborators are parameters, never reimplemented: the tokenizer
(`unobtanium_segmenter`), the numeric parser (`str::parse::<f64>`), and
the JSON string parser (`serde_json`) enter as function arguments; the
typed deserialisation of a JSON value into a string-to-string map is
modelled on `Json` trees.
-/

namespace SpamClassifier

/-- Size of the `u32` value space, `2 ^ 32`. -/
def U32 : ℕ := 2 ^ 32

/-- Occurrence counts for one token, `Counter` in `src/classifier.rs`.
Fields are `u32` in the source, embedded as `Nat`. -/
structure Counter where
  spam : ℕ
  ham : ℕ
  deriving Repr, DecidableEq

instance : Inhabited Counter := ⟨⟨0, 0⟩⟩

/-- Default `Counter` (`#[derive(Default)]` in the source): both counts zero. -/
def Counter.default : Counter := ⟨0, 0⟩

/-- Rust `Counter::from_u64`: `spam = (value >> 32) as u32`,
`ham = (value & u32::MAX as u64) as u32`.  The `as u32` casts are the
`% U32` reductions. -/
def Counter.fromU64 (value : ℕ) : Counter :=
  ⟨(value >>> 32) % U32, (value &&& (U32 - 1)) % U32⟩

/-- Rust `Counter::to_u64`: `(spam as u64) << 32 | ham`. -/
def Counter.toU64 (c : Counter) : ℕ :=
  (c.spam <<< 32) ||| c.ham

/-- Packing places `spam` in the high 32 bits and `ham` in the low 32 bits:
arithmetically, the packed value is `spam * 2 ^ 32 + ham`. -/
theorem Counter.toU64_eq (c : Counter) (hh : c.ham < U32) :
    c.toU64 = c.spam * U32 + c.ham := by
  unfold Counter.toU64 U32 at *
  rw [Nat.shiftLeft_eq, Nat.mul_comm, Nat.mul_add_lt_is_or hh]

/-- Round-trip of the counter packing for in-range fields. -/
theorem Counter.fromU64_toU64 (c : Counter)
    (hs : c.spam < U32) (hh : c.ham < U32) :
    Counter.fromU64 c.toU64 = c := by
  have he : c.toU64 = c.spam * U32 + c.ham := Counter.toU64_eq c hh
  unfold Counter.fromU64
  rw [he]
  have h32 : U32 - 1 = 2 ^ 32 - 1 := rfl
  rw [h32, Nat.and_pow_two_sub_one_eq_mod]
  have hsr : (c.spam * U32 + c.ham) >>> 32 = c.spam := by
    rw [Nat.shiftRight_eq_div_pow]
    show (c.spam * U32 + c.ham) / U32 = c.spam
    rw [Nat.mul_comm, Nat.mul_add_div (by norm_num [U32]),
      Nat.div_eq_of_lt hh]
    omega
  have hmr : (c.spam * U32 + c.ham) % 2 ^ 32 = c.ham := by
    show (c.spam * U32 + c.ham) % U32 = c.ham
    rw [Nat.add_comm, Nat.add_mul_mod_self_right, Nat.mod_eq_of_lt hh]
  rw [hsr, hmr, Nat.mod_eq_of_lt hs, Nat.mod_eq_of_lt hh]

/-- C6: for every Counter with both fields below `2 ^ 32`, unpacking the
packed 64-bit value restores the original Counter, and the packed value is
`spam * 2 ^ 32 + ham`, i.e. spam occupies the high 32 bits and ham the low
32 bits. -/
theorem counter_pack_unpack (c : Counter)
    (hs : c.spam < U32) (hh : c.ham < U32) :
    Counter.fromU64 c.toU64 = c ∧ c.toU64 = c.spam * U32 + c.ham :=
  ⟨Counter.fromU64_toU64 c hs hh, Counter.toU64_eq c hh⟩

/-- Witness for `counter_pack_unpack` at `spam = 10`, `ham = 5`. -/
theorem counter_pack_unpack_witness :
    Counter.fromU64 (Counter.toU64 ⟨10, 5⟩) = ⟨10, 5⟩ ∧
      Counter.toU64 ⟨10, 5⟩ = 10 * U32 + 5 := by
  have h := counter_pack_unpack ⟨10, 5⟩ (by norm_num [U32]) (by norm_num [U32])
  exact h

/-! ### Exact model of the `f32` values reachable in `classify`

Linear-domain `f32` values are `Fv`; the program only ever feeds finite
rationals, infinities and NaN through them.  Log-domain values are `Lv`:
every log-domain value in `classify` is the logarithm of a nonnegative
rational (or `+inf` / NaN), so `Lv.lnOf q` represents the real `ln q`,
with `Lv.lnOf 0` playing `-inf`. -/

/-- Model of a linear-domain `f32` value: a finite rational, an infinity,
or NaN.  Rounding is idealised away; special values are exact. -/
inductive Fv where
  | fin (q : ℚ)
  | pinf
  | ninf
  | nan
  deriving Repr, DecidableEq

/-- Rust `f32::is_nan`. -/
def Fv.isNan : Fv → Bool
  | .nan => true
  | _ => false

/-- Rust `f32::is_infinite`. -/
def Fv.isInfinite : Fv → Bool
  | .pinf => true
  | .ninf => true
  | _ => false

/-- Finite payload of an `Fv`; junk value 0 on non-finite inputs (only read
after the code has excluded NaN and infinities). -/
def Fv.toQ : Fv → ℚ
  | .fin q => q
  | _ => 0

/-- IEEE `f32` addition on the values reachable here. -/
def Fv.add : Fv → Fv → Fv
  | .nan, _ => .nan
  | _, .nan => .nan
  | .pinf, .ninf => .nan
  | .ninf, .pinf => .nan
  | .pinf, _ => .pinf
  | _, .pinf => .pinf
  | .ninf, _ => .ninf
  | _, .ninf => .ninf
  | .fin a, .fin b => .fin (a + b)

/-- IEEE `f32` division of two finite values (the only division the
classifier performs): division by zero yields a signed infinity, `0/0`
yields NaN. -/
def fdiv (a b : ℚ) : Fv :=
  if b = 0 then
    if a = 0 then .nan else if 0 < a then .pinf else .ninf
  else .fin (a / b)

/-- Model of a log-domain `f32` value: `lnOf q` is the real `ln q` for a
nonnegative rational `q` (`lnOf 0` is `-inf`), plus `+inf` and NaN. -/
inductive Lv where
  | lnOf (q : ℚ)
  | pinf
  | nan
  deriving Repr, DecidableEq

/-- IEEE `f32::ln`: NaN on negative inputs and NaN, `-inf` at 0 (here
`lnOf 0`), `+inf` at `+inf`. -/
def lnFv : Fv → Lv
  | .fin q => if q < 0 then .nan else .lnOf q
  | .pinf => .pinf
  | .ninf => .nan
  | .nan => .nan

/-- IEEE `f32` addition of two log-domain values: `ln a + ln b = ln (a*b)`
for nonnegative `a`, `b` (exact in this model); `+inf + (-inf)` is NaN. -/
def Lv.add : Lv → Lv → Lv
  | .nan, _ => .nan
  | _, .nan => .nan
  | .pinf, .lnOf b => if b = 0 then .nan else .pinf
  | .lnOf a, .pinf => if a = 0 then .nan else .pinf
  | .pinf, .pinf => .pinf
  | .lnOf a, .lnOf b => .lnOf (a * b)

/-- IEEE `f32` subtraction of two log-domain values:
`ln a - ln b = ln (a/b)`; `(-inf) - (-inf)` and `(+inf) - (+inf)` are NaN,
`x - (+inf)` is `-inf`, finite `- (-inf)` is `+inf`. -/
def Lv.sub : Lv → Lv → Lv
  | .nan, _ => .nan
  | _, .nan => .nan
  | .pinf, .pinf => .nan
  | .pinf, .lnOf _ => .pinf
  | .lnOf _, .pinf => .lnOf 0
  | .lnOf a, .lnOf b =>
    if b = 0 then (if a = 0 then .nan else .pinf)
    else .lnOf (a / b)

/-- IEEE `f32::exp` on a log-domain value: `exp (ln q) = q` (exact in this
model), `exp (+inf) = +inf`, `exp NaN = NaN`. -/
def Lv.exp : Lv → Fv
  | .lnOf q => .fin q
  | .pinf => .pinf
  | .nan => .nan

/-! ### Classifier statistics and the Naive Bayes classifier
(`src/classifier.rs`) -/

/-- Rust `ClassifierStats`: aggregate totals over the token store.  Fields are
`u32` in the source, embedded as `Nat`. -/
structure ClassifierStats where
  total_spam : ℕ
  total_ham : ℕ
  total_tokens : ℕ
  unique_tokens : ℕ
  deriving Repr, DecidableEq

/-- Rust `ClassifierStats::prior_spam`: `0.5` on an empty model, else
`total_spam / total_tokens`. -/
def ClassifierStats.prior_spam (s : ClassifierStats) : ℚ :=
  if s.total_tokens = 0 then 1/2
  else (s.total_spam : ℚ) / (s.total_tokens : ℚ)

/-- Rust `ClassifierStats::prior_ham`: `1.0 - prior_spam()`. -/
def ClassifierStats.prior_ham (s : ClassifierStats) : ℚ :=
  1 - s.prior_spam

/-- Association-list lookup, modelling `fst::Map::get` (and `HashMap`
lookup in the trainer). -/
def lookupKey {α : Type} : List (String × α) → String → Option α
  | [], _ => none
  | (k, v) :: rest, t => if k = t then some v else lookupKey rest t

/-- Rust `NaiveBayesClassifier`: the fst model (token to packed `u64`), derived
stats, Laplace `alpha`, and the spam threshold. -/
structure NaiveBayesClassifier where
  model : List (String × ℕ)
  stats : ClassifierStats
  alpha : ℚ
  spam_threshold : ℚ

/-- Rust `NaiveBayesClassifier::get_token_counter`:
`model.get(word).map(Counter::from_u64).unwrap_or_default()`. -/
def NaiveBayesClassifier.get_token_counter
    (c : NaiveBayesClassifier) (word : String) : Counter :=
  ((lookupKey c.model word).map Counter.fromU64).getD Counter.default

/-- Rust `NaiveBayesClassifier::calculate_likelihoods`: smoothed per-class
likelihoods of one counter, computed in `f32`. -/
def NaiveBayesClassifier.calculate_likelihoods
    (c : NaiveBayesClassifier) (counter : Counter) : Fv × Fv :=
  let spam_numerator : ℚ := (counter.spam : ℚ) + c.alpha
  let spam_denominator : ℚ :=
    (c.stats.total_spam : ℚ) + c.alpha * (c.stats.unique_tokens : ℚ)
  let spam_likelihood := fdiv spam_numerator spam_denominator
  let ham_numerator : ℚ := (counter.ham : ℚ) + c.alpha
  let ham_denominator : ℚ :=
    (c.stats.total_ham : ℚ) + c.alpha * (c.stats.unique_tokens : ℚ)
  let ham_likelihood := fdiv ham_numerator ham_denominator
  (spam_likelihood, ham_likelihood)

/-- Running log-probability sums of `classify`: seeded with the log priors
and accumulating the log likelihood of every token occurrence in order. -/
def NaiveBayesClassifier.logProbs
    (c : NaiveBayesClassifier) (tokens : List String) : Lv × Lv :=
  tokens.foldl
    (fun acc token =>
      let counter := c.get_token_counter token
      let lik := c.calculate_likelihoods counter
      (acc.1.add (lnFv lik.1), acc.2.add (lnFv lik.2)))
    (lnFv (.fin c.stats.prior_spam), lnFv (.fin c.stats.prior_ham))

/-- Normalisation step of `classify` before the NaN/infinity check:
`exp(log_prob_spam - ln(exp(log_prob_spam) + exp(log_prob_ham)))`. -/
def NaiveBayesClassifier.rawResult
    (c : NaiveBayesClassifier) (tokens : List String) : Fv :=
  let probs := c.logProbs tokens
  let log_denominator := lnFv ((probs.1.exp).add (probs.2.exp))
  (probs.1.sub log_denominator).exp

/-- Rust `NaiveBayesClassifier::classify`.  The tokenizer is the external
segmentation library and enters as the parameter `tok`. -/
def NaiveBayesClassifier.classify (tok : String → List String)
    (c : NaiveBayesClassifier) (text : String) : ℚ :=
  let tokens := tok text
  if tokens = [] then c.stats.prior_spam
  else
    let result := c.rawResult tokens
    if result.isNan || result.isInfinite then c.stats.prior_spam
    else result.toQ

/-- Rust `ClassificationResult` of `classify_detailed`. -/
structure ClassificationResult where
  spam_probability : ℚ
  ham_probability : ℚ
  is_spam : Bool
  confidence : ℚ
  deriving Repr, DecidableEq

/-- Rust `NaiveBayesClassifier::classify_detailed`. -/
def NaiveBayesClassifier.classify_detailed (tok : String → List String)
    (c : NaiveBayesClassifier) (text : String) : ClassificationResult :=
  let spam_probability := c.classify tok text
  let is_spam : Bool := decide (c.spam_threshold ≤ spam_probability)
  { spam_probability := spam_probability
    ham_probability := 1 - spam_probability
    is_spam := is_spam
    confidence := if is_spam then spam_probability else 1 - spam_probability }

/-! ### Claims C1, C3, C4 -/

/-- C1: whenever the tokenization of the input is empty (in particular for
the empty string and punctuation-only strings, whose token sequence is
empty by the tokenizer contract), `classify` returns the prior spam
probability `total_spam / total_tokens`, and that prior is exactly `1/2`
when `total_tokens = 0` — the division is guarded, never performed on a
zero denominator. -/
theorem classify_empty_tokens (tok : String → List String)
    (c : NaiveBayesClassifier) (text : String) (h : tok text = []) :
    NaiveBayesClassifier.classify tok c text = c.stats.prior_spam ∧
    (c.stats.total_tokens ≠ 0 →
      NaiveBayesClassifier.classify tok c text =
        (c.stats.total_spam : ℚ) / (c.stats.total_tokens : ℚ)) ∧
    (c.stats.total_tokens = 0 →
      NaiveBayesClassifier.classify tok c text = 1/2) := by
  have hc : NaiveBayesClassifier.classify tok c text = c.stats.prior_spam := by
    unfold NaiveBayesClassifier.classify
    simp [h]
  refine ⟨hc, ?_, ?_⟩
  · intro hz
    rw [hc]
    unfold ClassifierStats.prior_spam
    simp [hz]
  · intro hz
    rw [hc]
    unfold ClassifierStats.prior_spam
    simp [hz]

/-- Concrete classifier with an empty-tokenizing input for the C1 witness. -/
def emptyTokClassifier : NaiveBayesClassifier :=
  ⟨[("free", 5 * U32)], ⟨5, 3, 8, 1⟩, 1, 4/5⟩

/-- Concrete untrained classifier (all stats zero) for the C1 witness. -/
def zeroStatsClassifier : NaiveBayesClassifier :=
  ⟨[], ⟨0, 0, 0, 0⟩, 1, 4/5⟩

/-- Witness for `classify_empty_tokens`: an always-empty tokenizer on a
trained classifier yields the prior `5/8`, and on an untrained classifier
yields `1/2`. -/
theorem classify_empty_tokens_witness :
    (fun _ : String => ([] : List String)) "!!" = [] ∧
    NaiveBayesClassifier.classify (fun _ => []) emptyTokClassifier "!!" =
      (5 : ℚ) / 8 ∧
    NaiveBayesClassifier.classify (fun _ => []) zeroStatsClassifier "!!" =
      1/2 := by
  refine ⟨rfl, ?_, ?_⟩
  · have h := classify_empty_tokens (fun _ => []) emptyTokClassifier "!!" rfl
    rw [h.2.1 (by decide)]
    norm_num [emptyTokClassifier]
  · exact (classify_empty_tokens (fun _ => []) zeroStatsClassifier "!!"
      rfl).2.2 rfl

/-- C3: `classify_detailed` returns `classify` of the text as
`spam_probability`, `ham_probability = 1 - spam_probability`,
`is_spam ↔ spam_probability ≥ spam_threshold`, and `confidence` equal to
`spam_probability` when `is_spam` holds, else `ham_probability`. -/
theorem classify_detailed_spec (tok : String → List String)
    (c : NaiveBayesClassifier) (text : String) :
    (NaiveBayesClassifier.classify_detailed tok c text).spam_probability =
      NaiveBayesClassifier.classify tok c text ∧
    (NaiveBayesClassifier.classify_detailed tok c text).ham_probability =
      1 - (NaiveBayesClassifier.classify_detailed tok c text).spam_probability ∧
    ((NaiveBayesClassifier.classify_detailed tok c text).is_spam = true ↔
      c.spam_threshold ≤
        (NaiveBayesClassifier.classify_detailed tok c text).spam_probability) ∧
    (NaiveBayesClassifier.classify_detailed tok c text).confidence =
      (if (NaiveBayesClassifier.classify_detailed tok c text).is_spam then
        (NaiveBayesClassifier.classify_detailed tok c text).spam_probability
      else
        (NaiveBayesClassifier.classify_detailed tok c text).ham_probability) := by
  unfold NaiveBayesClassifier.classify_detailed
  refine ⟨rfl, rfl, by simp, rfl⟩

/-- C4: whenever the normalized log-domain result (before the final check)
is NaN or infinite, `classify` returns the prior spam probability; combined
with the return type of the embedding, no NaN or infinity escapes to the
caller. -/
theorem classify_nan_or_inf_fallback (tok : String → List String)
    (c : NaiveBayesClassifier) (text : String)
    (h : ((c.rawResult (tok text)).isNan ||
          (c.rawResult (tok text)).isInfinite) = true) :
    NaiveBayesClassifier.classify tok c text = c.stats.prior_spam := by
  unfold NaiveBayesClassifier.classify
  by_cases he : tok text = []
  · simp [he]
  · simp [he, h]

/-- Classifier whose raw result degenerates to NaN (untrained model, one
token): for the C4 witness. -/
def nanClassifier : NaiveBayesClassifier :=
  ⟨[], ⟨0, 0, 0, 0⟩, 1, 4/5⟩

/-- Witness for `classify_nan_or_inf_fallback`: on the untrained model the
raw result of classifying one token is NaN, and `classify` falls back to
the prior `1/2`. -/
theorem classify_nan_or_inf_fallback_witness :
    ((nanClassifier.rawResult ((fun _ : String => ["x"]) "hi")).isNan ||
      (nanClassifier.rawResult ((fun _ : String => ["x"]) "hi")).isInfinite)
        = true ∧
    NaiveBayesClassifier.classify (fun _ => ["x"]) nanClassifier "hi" =
      nanClassifier.stats.prior_spam := by
  have h : ((nanClassifier.rawResult ((fun _ : String => ["x"]) "hi")).isNan ||
      (nanClassifier.rawResult ((fun _ : String => ["x"]) "hi")).isInfinite)
        = true := by
    norm_num [nanClassifier, NaiveBayesClassifier.rawResult,
      NaiveBayesClassifier.logProbs, NaiveBayesClassifier.get_token_counter,
      NaiveBayesClassifier.calculate_likelihoods, lookupKey, fdiv, lnFv,
      Lv.add, Lv.sub, Lv.exp, Fv.add, Fv.isNan, Fv.isInfinite,
      ClassifierStats.prior_spam, ClassifierStats.prior_ham, Counter.default]
  exact ⟨h, classify_nan_or_inf_fallback (fun _ => ["x"]) nanClassifier "hi" h⟩

/-! ### Claim C2: likelihood formula and log accumulation -/

/-- Prior spam probability is nonnegative. -/
theorem prior_spam_nonneg (s : ClassifierStats) : 0 ≤ s.prior_spam := by
  unfold ClassifierStats.prior_spam
  split
  · norm_num
  · positivity

/-- Prior spam probability is at most 1 when the totals are consistent. -/
theorem prior_spam_le_one (s : ClassifierStats)
    (h : s.total_spam ≤ s.total_tokens) : s.prior_spam ≤ 1 := by
  unfold ClassifierStats.prior_spam
  split
  · norm_num
  · next hz =>
    rw [div_le_one (by exact_mod_cast Nat.pos_of_ne_zero hz)]
    exact_mod_cast h

/-- Unfolding of the likelihood pair when both denominators are nonzero. -/
theorem calculate_likelihoods_eq (c : NaiveBayesClassifier) (counter : Counter)
    (hds : ((c.stats.total_spam : ℚ) + c.alpha * (c.stats.unique_tokens : ℚ)) ≠ 0)
    (hdh : ((c.stats.total_ham : ℚ) + c.alpha * (c.stats.unique_tokens : ℚ)) ≠ 0) :
    c.calculate_likelihoods counter =
      (.fin (((counter.spam : ℚ) + c.alpha) /
          ((c.stats.total_spam : ℚ) + c.alpha * (c.stats.unique_tokens : ℚ))),
       .fin (((counter.ham : ℚ) + c.alpha) /
          ((c.stats.total_ham : ℚ) + c.alpha * (c.stats.unique_tokens : ℚ)))) := by
  unfold NaiveBayesClassifier.calculate_likelihoods fdiv
  simp [hds, hdh]

/-- Per-token smoothed spam likelihood as a rational, for stating the
accumulation. -/
def spamLik (c : NaiveBayesClassifier) (t : String) : ℚ :=
  (((c.get_token_counter t).spam : ℚ) + c.alpha) /
    ((c.stats.total_spam : ℚ) + c.alpha * (c.stats.unique_tokens : ℚ))

/-- Per-token smoothed ham likelihood as a rational. -/
def hamLik (c : NaiveBayesClassifier) (t : String) : ℚ :=
  (((c.get_token_counter t).ham : ℚ) + c.alpha) /
    ((c.stats.total_ham : ℚ) + c.alpha * (c.stats.unique_tokens : ℚ))

/-- The log-probability fold over any starting log values `ln a`, `ln b`
multiplies in every token occurrence's likelihood, in exact arithmetic. -/
theorem foldl_logProbs (c : NaiveBayesClassifier) (tokens : List String)
    (a b : ℚ) (ha : 0 ≤ a) (hb : 0 ≤ b)
    (hα : 0 ≤ c.alpha)
    (hds : 0 < (c.stats.total_spam : ℚ) + c.alpha * (c.stats.unique_tokens : ℚ))
    (hdh : 0 < (c.stats.total_ham : ℚ) + c.alpha * (c.stats.unique_tokens : ℚ)) :
    tokens.foldl
      (fun acc token =>
        let counter := c.get_token_counter token
        let lik := c.calculate_likelihoods counter
        (acc.1.add (lnFv lik.1), acc.2.add (lnFv lik.2)))
      (Lv.lnOf a, Lv.lnOf b) =
      (Lv.lnOf (a * (tokens.map (spamLik c)).prod),
       Lv.lnOf (b * (tokens.map (hamLik c)).prod)) := by
  induction tokens generalizing a b with
  | nil => simp
  | cons t rest ih =>
    have hsn : (0:ℚ) ≤ spamLik c t := by
      unfold spamLik
      apply div_nonneg _ (le_of_lt hds)
      positivity
    have hhn : (0:ℚ) ≤ hamLik c t := by
      unfold hamLik
      apply div_nonneg _ (le_of_lt hdh)
      positivity
    rw [List.foldl_cons]
    have hstep :
        (let counter := c.get_token_counter t
         let lik := c.calculate_likelihoods counter
         ((Lv.lnOf a, Lv.lnOf b).1.add (lnFv lik.1),
          (Lv.lnOf a, Lv.lnOf b).2.add (lnFv lik.2))) =
          (Lv.lnOf (a * spamLik c t), Lv.lnOf (b * hamLik c t)) := by
      show ((Lv.lnOf a).add (lnFv (c.calculate_likelihoods
              (c.get_token_counter t)).1),
            (Lv.lnOf b).add (lnFv (c.calculate_likelihoods
              (c.get_token_counter t)).2)) = _
      rw [calculate_likelihoods_eq c _ (ne_of_gt hds) (ne_of_gt hdh)]
      show ((Lv.lnOf a).add (lnFv (.fin (spamLik c t))),
            (Lv.lnOf b).add (lnFv (.fin (hamLik c t)))) = _
      simp only [lnFv]
      rw [if_neg (not_lt.mpr hsn), if_neg (not_lt.mpr hhn)]
      rfl
    rw [hstep, ih _ _ (mul_nonneg ha hsn) (mul_nonneg hb hhn)]
    simp [mul_assoc]

/-- C2: for every token processed during classification, the smoothed
likelihoods are `(counter.spam + alpha) / (total_spam + alpha *
unique_tokens)` and `(counter.ham + alpha) / (total_ham + alpha *
unique_tokens)`; a token absent from the store contributes the zero
counter; and the running log sums accumulate the logarithm of each
occurrence's likelihood, so the log-probability pair equals the logarithm
of the prior times the product over the token list (with multiplicity). -/
theorem token_likelihood_accumulation (c : NaiveBayesClassifier)
    (hα : 0 ≤ c.alpha)
    (hds : 0 < (c.stats.total_spam : ℚ) + c.alpha * (c.stats.unique_tokens : ℚ))
    (hdh : 0 < (c.stats.total_ham : ℚ) + c.alpha * (c.stats.unique_tokens : ℚ))
    (hst : c.stats.total_spam ≤ c.stats.total_tokens) :
    (∀ counter : Counter,
      c.calculate_likelihoods counter =
        (.fin (((counter.spam : ℚ) + c.alpha) /
            ((c.stats.total_spam : ℚ) + c.alpha * (c.stats.unique_tokens : ℚ))),
         .fin (((counter.ham : ℚ) + c.alpha) /
            ((c.stats.total_ham : ℚ) + c.alpha * (c.stats.unique_tokens : ℚ))))) ∧
    (∀ word : String, lookupKey c.model word = none →
      c.get_token_counter word = ⟨0, 0⟩) ∧
    (∀ tokens : List String,
      c.logProbs tokens =
        (Lv.lnOf (c.stats.prior_spam * (tokens.map (spamLik c)).prod),
         Lv.lnOf (c.stats.prior_ham * (tokens.map (hamLik c)).prod))) := by
  refine ⟨fun counter =>
    calculate_likelihoods_eq c counter (ne_of_gt hds) (ne_of_gt hdh),
    fun word hw => ?_, fun tokens => ?_⟩
  · unfold NaiveBayesClassifier.get_token_counter
    rw [hw]
    rfl
  · have hham : (0:ℚ) ≤ c.stats.prior_ham := by
      unfold ClassifierStats.prior_ham
      have := prior_spam_le_one c.stats hst
      linarith
    have h := foldl_logProbs c tokens c.stats.prior_spam c.stats.prior_ham
      (prior_spam_nonneg c.stats) hham hα hds hdh
    unfold NaiveBayesClassifier.logProbs
    simp only [lnFv]
    rw [if_neg (not_lt.mpr (prior_spam_nonneg c.stats)),
      if_neg (not_lt.mpr hham)]
    exact h

/-- Concrete classifier for the C2 witness: one stored token
`"free"` with counter `(spam, ham) = (5, 3)`, consistent stats. -/
def likClassifier : NaiveBayesClassifier :=
  ⟨[("free", Counter.toU64 ⟨5, 3⟩)], ⟨5, 3, 8, 1⟩, 1, 4/5⟩

/-- Witness for `token_likelihood_accumulation` at a concrete classifier,
evaluating the stored-token likelihoods `(5+1)/(5+1)` and `(3+1)/(3+1)`. -/
theorem token_likelihood_accumulation_witness :
    (0:ℚ) ≤ likClassifier.alpha ∧
    (0:ℚ) < (likClassifier.stats.total_spam : ℚ) +
      likClassifier.alpha * (likClassifier.stats.unique_tokens : ℚ) ∧
    (0:ℚ) < (likClassifier.stats.total_ham : ℚ) +
      likClassifier.alpha * (likClassifier.stats.unique_tokens : ℚ) ∧
    likClassifier.stats.total_spam ≤ likClassifier.stats.total_tokens ∧
    (∀ word : String, lookupKey likClassifier.model word = none →
      likClassifier.get_token_counter word = ⟨0, 0⟩) := by
  have h1 : (0:ℚ) ≤ likClassifier.alpha := by norm_num [likClassifier]
  have h2 : (0:ℚ) < (likClassifier.stats.total_spam : ℚ) +
      likClassifier.alpha * (likClassifier.stats.unique_tokens : ℚ) := by
    norm_num [likClassifier]
  have h3 : (0:ℚ) < (likClassifier.stats.total_ham : ℚ) +
      likClassifier.alpha * (likClassifier.stats.unique_tokens : ℚ) := by
    norm_num [likClassifier]
  have h4 : likClassifier.stats.total_spam ≤
      likClassifier.stats.total_tokens := by norm_num [likClassifier]
  exact ⟨h1, h2, h3, h4,
    (token_likelihood_accumulation likClassifier h1 h2 h3 h4).2.1⟩

/-! ### Claim C5: classify stays in the unit interval -/

/-- Well-formedness of a log-domain value: a finite-or-minus-infinity
value is the logarithm of a nonnegative rational.  Every `Lv` the
classifier constructs satisfies it. -/
def Lv.ok : Lv → Prop
  | .lnOf q => 0 ≤ q
  | .pinf => True
  | .nan => True

/-- The logarithm of any `Fv` is a well-formed log value. -/
theorem lnFv_ok (v : Fv) : (lnFv v).ok := by
  cases v with
  | fin q =>
    by_cases h : q < 0 <;> simp [lnFv, h, Lv.ok]
    linarith
  | pinf => trivial
  | ninf => trivial
  | nan => trivial

/-- Addition preserves well-formedness of log values. -/
theorem Lv.add_ok : ∀ {x y : Lv}, x.ok → y.ok → (x.add y).ok
  | .lnOf _, .lnOf _, hx, hy => mul_nonneg hx hy
  | .lnOf a, .pinf, _, _ => by
    show Lv.ok (if a = 0 then .nan else .pinf)
    split <;> trivial
  | .lnOf _, .nan, _, _ => trivial
  | .pinf, .lnOf b, _, _ => by
    show Lv.ok (if b = 0 then .nan else .pinf)
    split <;> trivial
  | .pinf, .pinf, _, _ => trivial
  | .pinf, .nan, _, _ => trivial
  | .nan, .lnOf _, _, _ => trivial
  | .nan, .pinf, _, _ => trivial
  | .nan, .nan, _, _ => trivial

/-- Both running log sums are well formed after the fold. -/
theorem logProbs_ok (c : NaiveBayesClassifier) (tokens : List String) :
    (c.logProbs tokens).1.ok ∧ (c.logProbs tokens).2.ok := by
  unfold NaiveBayesClassifier.logProbs
  have : ∀ (x y : Lv), x.ok → y.ok →
      ((tokens.foldl
        (fun acc token =>
          let counter := c.get_token_counter token
          let lik := c.calculate_likelihoods counter
          (acc.1.add (lnFv lik.1), acc.2.add (lnFv lik.2))) (x, y)).1.ok ∧
       (tokens.foldl
        (fun acc token =>
          let counter := c.get_token_counter token
          let lik := c.calculate_likelihoods counter
          (acc.1.add (lnFv lik.1), acc.2.add (lnFv lik.2))) (x, y)).2.ok) := by
    induction tokens with
    | nil => intro x y hx hy; exact ⟨hx, hy⟩
    | cons t rest ih =>
      intro x y hx hy
      rw [List.foldl_cons]
      exact ih _ _ (Lv.add_ok hx (lnFv_ok _)) (Lv.add_ok hy (lnFv_ok _))
  exact this _ _ (lnFv_ok _) (lnFv_ok _)

/-- Normalisation of a pair of well-formed log sums is either a finite
rational in `[0, 1]` or NaN. -/
theorem normVal_mem_unit_or_nan (ls lh : Lv) (h1 : ls.ok) (h2 : lh.ok) :
    (∃ q : ℚ, 0 ≤ q ∧ q ≤ 1 ∧
        (ls.sub (lnFv (ls.exp.add lh.exp))).exp = .fin q) ∨
      ((ls.sub (lnFv (ls.exp.add lh.exp))).exp).isNan = true := by
  cases ls with
  | lnOf a =>
    have ha : 0 ≤ a := h1
    cases lh with
    | lnOf b =>
      have hb : 0 ≤ b := h2
      show (∃ q, 0 ≤ q ∧ q ≤ 1 ∧
          ((Lv.lnOf a).sub (lnFv (Fv.fin (a + b)))).exp = .fin q) ∨
        (((Lv.lnOf a).sub (lnFv (Fv.fin (a + b)))).exp).isNan = true
      have hab : ¬ (a + b < 0) := by linarith
      simp only [lnFv, if_neg hab]
      by_cases hz : a + b = 0
      · right
        have haz : a = 0 := by linarith
        simp only [Lv.sub, if_pos hz, if_pos haz]
        rfl
      · left
        refine ⟨a / (a + b), ?_, ?_, ?_⟩
        · have : (0:ℚ) < a + b := lt_of_le_of_ne (by linarith) (Ne.symm hz)
          positivity
        · rw [div_le_one (lt_of_le_of_ne (by linarith) (Ne.symm hz))]
          linarith
        · simp only [Lv.sub, if_neg hz]
          rfl
    | pinf => exact Or.inl ⟨0, le_refl 0, by norm_num, rfl⟩
    | nan => exact Or.inr rfl
  | pinf =>
    cases lh with
    | lnOf b => exact Or.inr rfl
    | pinf => exact Or.inr rfl
    | nan => exact Or.inr rfl
  | nan =>
    cases lh with
    | lnOf b => exact Or.inr rfl
    | pinf => exact Or.inr rfl
    | nan => exact Or.inr rfl

/-- The raw normalized result is either a finite rational in `[0, 1]` or
NaN. -/
theorem rawResult_mem_unit_or_nan (c : NaiveBayesClassifier)
    (tokens : List String) :
    (∃ q : ℚ, 0 ≤ q ∧ q ≤ 1 ∧ c.rawResult tokens = .fin q) ∨
      (c.rawResult tokens).isNan = true := by
  obtain ⟨h1, h2⟩ := logProbs_ok c tokens
  exact normVal_mem_unit_or_nan (c.logProbs tokens).1 (c.logProbs tokens).2
    h1 h2

/-- Prior probability bounds under consistent totals. -/
theorem prior_spam_mem_unit (s : ClassifierStats)
    (h : s.total_spam ≤ s.total_tokens) :
    0 ≤ s.prior_spam ∧ s.prior_spam ≤ 1 :=
  ⟨prior_spam_nonneg s, prior_spam_le_one s h⟩

/-- C5: for every input text — including the empty string and
punctuation-only strings — `classify` returns a value in `[0, 1]`,
provided the model totals are consistent (`total_spam ≤ total_tokens`,
which holds for stats aggregated without overflow). -/
theorem classify_mem_unit (tok : String → List String)
    (c : NaiveBayesClassifier) (text : String)
    (h : c.stats.total_spam ≤ c.stats.total_tokens) :
    0 ≤ NaiveBayesClassifier.classify tok c text ∧
      NaiveBayesClassifier.classify tok c text ≤ 1 := by
  obtain ⟨hp0, hp1⟩ := prior_spam_mem_unit c.stats h
  unfold NaiveBayesClassifier.classify
  by_cases he : tok text = []
  · simp [he, hp0, hp1]
  · simp only [he, if_false]
    rcases rawResult_mem_unit_or_nan c (tok text) with ⟨q, hq0, hq1, hq⟩ | hnan
    · rw [hq]
      simp [Fv.isNan, Fv.isInfinite, Fv.toQ, hq0, hq1]
    · rw [hnan]
      simp [hp0, hp1]

/-- Witness for `classify_mem_unit` on a concrete trained classifier and a
punctuation-only input (tokenized to the empty list). -/
theorem classify_mem_unit_witness :
    likClassifier.stats.total_spam ≤ likClassifier.stats.total_tokens ∧
    (0 ≤ NaiveBayesClassifier.classify (fun _ => ["free", "free"])
        likClassifier "free free" ∧
      NaiveBayesClassifier.classify (fun _ => ["free", "free"])
        likClassifier "free free" ≤ 1) :=
  ⟨by decide,
    classify_mem_unit (fun _ => ["free", "free"]) likClassifier "free free"
      (by decide)⟩

/-! ### Trainer (`src/bin/train.rs`) -/

/-- One training record: field 0 is the text, field 1 the label. -/
structure Sample where
  text : String
  label : String

/-- The label-directed increment of one accumulator entry:
`if is_spam { counter.spam += 1 } else if is_ham { counter.ham += 1 }`,
with `u32` wrap-around made explicit. -/
def bumpCounter (isSpamL isHamL : Bool) (c : Counter) : Counter :=
  if isSpamL then { c with spam := (c.spam + 1) % U32 }
  else if isHamL then { c with ham := (c.ham + 1) % U32 }
  else c

/-- Rust `counters.entry(token).or_default()` followed by an update: modify the
entry for `k` in place, inserting `f` of the zero counter if absent. -/
def updateAssoc (m : List (String × Counter)) (k : String)
    (f : Counter → Counter) : List (String × Counter) :=
  match m with
  | [] => [(k, f Counter.default)]
  | (q, v) :: rest =>
    if q = k then (q, f v) :: rest else (q, v) :: updateAssoc rest k f

/-- Processing one record: tokenize the text and apply the label-directed
increment to every token occurrence. -/
def processSample (tok : String → List String)
    (m : List (String × Counter)) (s : Sample) : List (String × Counter) :=
  (tok s.text).foldl
    (fun acc token =>
      updateAssoc acc token
        (bumpCounter (s.label == "spam") (s.label == "ham"))) m

/-- Loading a pre-existing model: stream the store and insert every
`(key, Counter::from_u64(value))` pair into the accumulator. -/
def loadPrior (store : List (String × ℕ)) : List (String × Counter) :=
  store.map (fun e => (e.1, Counter.fromU64 e.2))

/-- The full accumulation pass of `main`: load the prior store if any,
then fold every record through `processSample`. -/
def trainCounters (tok : String → List String) (prior : List (String × ℕ))
    (samples : List Sample) : List (String × Counter) :=
  samples.foldl (processSample tok) (loadPrior prior)

/-- Sorting the accumulated pairs ascending by token and packing each
counter, as done before `fst::MapBuilder` insertion. -/
def buildStore (m : List (String × Counter)) : List (String × ℕ) :=
  (m.mergeSort (fun a b => decide (a.1 ≤ b.1))).map
    (fun e => (e.1, e.2.toU64))

/-- One full training run: accumulate, sort, pack. -/
def trainRun (tok : String → List String) (prior : List (String × ℕ))
    (samples : List Sample) : List (String × ℕ) :=
  buildStore (trainCounters tok prior samples)

/-- Counter stored for a token, zero if absent (how every reader of the
store interprets it). -/
def storeCounter (store : List (String × ℕ)) (t : String) : Counter :=
  ((lookupKey store t).map Counter.fromU64).getD Counter.default

/-- Accumulator counter of a token, zero if absent. -/
def accCounter (m : List (String × Counter)) (t : String) : Counter :=
  (lookupKey m t).getD Counter.default

/-- Key set of an association list. -/
def keysOf {α : Type} (m : List (String × α)) : List String :=
  m.map Prod.fst

/-- Occurrences of token `t` in the spam-labeled part of the dataset. -/
def spamOcc (tok : String → List String) (samples : List Sample)
    (t : String) : ℕ :=
  (samples.map (fun s =>
    if s.label = "spam" then (tok s.text).count t else 0)).sum

/-- Occurrences of token `t` in the ham-labeled part of the dataset. -/
def hamOcc (tok : String → List String) (samples : List Sample)
    (t : String) : ℕ :=
  (samples.map (fun s =>
    if s.label = "ham" then (tok s.text).count t else 0)).sum

/-! ### Association-list lemmas -/

/-- Lookup after an in-place update. -/
theorem lookupKey_updateAssoc (m : List (String × Counter)) (k t : String)
    (f : Counter → Counter) :
    lookupKey (updateAssoc m k f) t =
      if k = t then some (f (accCounter m t)) else lookupKey m t := by
  induction m with
  | nil =>
    by_cases h : k = t <;> simp [updateAssoc, lookupKey, accCounter, h]
  | cons e rest ih =>
    obtain ⟨q, v⟩ := e
    by_cases hq : q = k
    · subst hq
      by_cases ht : q = t <;>
        simp [updateAssoc, lookupKey, accCounter, ht]
    · by_cases ht : q = t
      · subst ht
        have hkt : ¬ k = q := fun h => hq h.symm
        simp [updateAssoc, lookupKey, accCounter, hq, hkt]
      · have h1 : accCounter ((q, v) :: rest) t = accCounter rest t := by
          unfold accCounter
          show ((if q = t then some v else lookupKey rest t).getD
            Counter.default) = _
          rw [if_neg ht]
        have h2 : lookupKey ((q, v) :: rest) t = lookupKey rest t := by
          show (if q = t then some v else lookupKey rest t) = _
          rw [if_neg ht]
        have h3 : updateAssoc ((q, v) :: rest) k f =
            (q, v) :: updateAssoc rest k f := by
          rw [show updateAssoc ((q, v) :: rest) k f =
            if q = k then (q, f v) :: rest else (q, v) :: updateAssoc rest k f
            from rfl]
          rw [if_neg hq]
        rw [h3, h1, h2]
        show (if q = t then some v else lookupKey (updateAssoc rest k f) t) = _
        rw [if_neg ht, ih]

/-- Lookup is `none` exactly off the key set. -/
theorem lookupKey_eq_none {α : Type} (m : List (String × α)) (t : String) :
    lookupKey m t = none ↔ t ∉ keysOf m := by
  induction m with
  | nil => simp [lookupKey, keysOf]
  | cons e rest ih =>
    obtain ⟨q, v⟩ := e
    show (if q = t then some v else lookupKey rest t) = none ↔ _
    by_cases h : q = t
    · subst h
      simp [keysOf]
    · rw [if_neg h, ih]
      constructor
      · intro hn
        simp only [keysOf, List.map_cons, List.mem_cons, not_or]
        exact ⟨fun ht => h ht.symm, by simpa [keysOf] using hn⟩
      · intro hn
        simp only [keysOf, List.map_cons, List.mem_cons, not_or] at hn
        simpa [keysOf] using hn.2

/-- Lookup commutes with mapping over the values. -/
theorem lookupKey_map {α β : Type} (m : List (String × α)) (g : α → β)
    (t : String) :
    lookupKey (m.map (fun e => (e.1, g e.2))) t = (lookupKey m t).map g := by
  induction m with
  | nil => simp [lookupKey]
  | cons e rest ih =>
    obtain ⟨q, v⟩ := e
    by_cases h : q = t <;> simp [lookupKey, h, ih]

/-- Keys after an in-place update: unchanged when the key is present,
appended otherwise. -/
theorem keysOf_updateAssoc (m : List (String × Counter)) (k : String)
    (f : Counter → Counter) :
    keysOf (updateAssoc m k f) =
      if k ∈ keysOf m then keysOf m else keysOf m ++ [k] := by
  induction m with
  | nil => simp [updateAssoc, keysOf]
  | cons e rest ih =>
    obtain ⟨q, v⟩ := e
    by_cases hq : q = k
    · subst hq
      simp [updateAssoc, keysOf]
    · have h1 : updateAssoc ((q, v) :: rest) k f =
          (q, v) :: updateAssoc rest k f := by
        rw [show updateAssoc ((q, v) :: rest) k f =
          if q = k then (q, f v) :: rest else (q, v) :: updateAssoc rest k f
          from rfl, if_neg hq]
      rw [h1]
      have hcons : keysOf ((q, v) :: rest) = q :: keysOf rest := rfl
      have hcons2 : keysOf ((q, v) :: updateAssoc rest k f) =
        q :: keysOf (updateAssoc rest k f) := rfl
      rw [hcons, hcons2, ih]
      by_cases hm : k ∈ keysOf rest
      · rw [if_pos hm, if_pos (List.mem_cons_of_mem q hm)]
      · rw [if_neg hm, if_neg (by
          intro hx
          rcases List.mem_cons.mp hx with h | h
          · exact hq h.symm
          · exact hm h)]
        rfl

/-- Membership in the key set after an update. -/
theorem mem_keysOf_updateAssoc (m : List (String × Counter)) (k t : String)
    (f : Counter → Counter) :
    t ∈ keysOf (updateAssoc m k f) ↔ t ∈ keysOf m ∨ t = k := by
  rw [keysOf_updateAssoc]
  by_cases hm : k ∈ keysOf m
  · rw [if_pos hm]
    constructor
    · exact Or.inl
    · rintro (h | rfl)
      · exact h
      · exact hm
  · rw [if_neg hm]
    simp

/-- Updates keep the key list duplicate-free. -/
theorem keysOf_updateAssoc_nodup (m : List (String × Counter)) (k : String)
    (f : Counter → Counter) (h : (keysOf m).Nodup) :
    (keysOf (updateAssoc m k f)).Nodup := by
  rw [keysOf_updateAssoc]
  by_cases hm : k ∈ keysOf m
  · rw [if_pos hm]
    exact h
  · rw [if_neg hm]
    refine List.Nodup.append h (List.nodup_singleton k) ?_
    intro a ha hak
    rw [List.mem_singleton] at hak
    subst hak
    exact hm ha

/-- Folding the per-token update over a token list applies the increment
once per occurrence of the looked-up token. -/
theorem accCounter_foldl_update (f : Counter → Counter) (ts : List String)
    (m : List (String × Counter)) (t : String) :
    accCounter (ts.foldl (fun acc token => updateAssoc acc token f) m) t =
      f^[ts.count t] (accCounter m t) := by
  induction ts generalizing m with
  | nil => rfl
  | cons u rest ih =>
    rw [List.foldl_cons, ih]
    have hacc : accCounter (updateAssoc m u f) t =
        if u = t then f (accCounter m t) else accCounter m t := by
      unfold accCounter
      rw [lookupKey_updateAssoc]
      by_cases h : u = t <;> simp [h, accCounter]
    by_cases h : u = t
    · subst h
      rw [hacc, if_pos rfl, List.count_cons_self]
      exact (Function.iterate_succ_apply f _ _).symm
    · rw [hacc, if_neg h, List.count_cons_of_ne (Ne.symm h)]

/-- Every processed token joins the key set, and prior keys persist. -/
theorem mem_keysOf_foldl_update (f : Counter → Counter) (ts : List String)
    (m : List (String × Counter)) (t : String) :
    (t ∈ keysOf m ∨ t ∈ ts) →
      t ∈ keysOf (ts.foldl (fun acc token => updateAssoc acc token f) m) := by
  induction ts generalizing m with
  | nil =>
    intro h
    rcases h with h | h
    · exact h
    · simp at h
  | cons u rest ih =>
    intro h
    rw [List.foldl_cons]
    apply ih
    rcases h with h | h
    · exact Or.inl ((mem_keysOf_updateAssoc m u t f).mpr (Or.inl h))
    · rcases List.mem_cons.mp h with h | h
      · exact Or.inl ((mem_keysOf_updateAssoc m u t f).mpr (Or.inr h))
      · exact Or.inr h

/-- The token fold keeps the key list duplicate-free. -/
theorem keysOf_foldl_update_nodup (f : Counter → Counter) (ts : List String)
    (m : List (String × Counter)) :
    (keysOf m).Nodup →
      (keysOf (ts.foldl (fun acc token =>
        updateAssoc acc token f) m)).Nodup := by
  induction ts generalizing m with
  | nil => exact fun h => h
  | cons u rest ih =>
    intro h
    rw [List.foldl_cons]
    exact ih _ (keysOf_updateAssoc_nodup m u f h)

/-- Iterating the spam increment adds modulo `2 ^ 32`. -/
theorem bump_spam_iterate (n : ℕ) (c : Counter) (h : c.spam < U32) :
    (bumpCounter true false)^[n] c = ⟨(c.spam + n) % U32, c.ham⟩ := by
  induction n generalizing c with
  | zero => simp [Nat.mod_eq_of_lt h]
  | succ n ih =>
    rw [Function.iterate_succ_apply]
    have hb : bumpCounter true false c = ⟨(c.spam + 1) % U32, c.ham⟩ := rfl
    rw [hb, ih ⟨(c.spam + 1) % U32, c.ham⟩
      (Nat.mod_lt _ (by norm_num [U32]))]
    congr 1
    simp only [show U32 = 4294967296 from rfl]
    omega

/-- Iterating the ham increment adds modulo `2 ^ 32`. -/
theorem bump_ham_iterate (n : ℕ) (c : Counter) (h : c.ham < U32) :
    (bumpCounter false true)^[n] c = ⟨c.spam, (c.ham + n) % U32⟩ := by
  induction n generalizing c with
  | zero => simp [Nat.mod_eq_of_lt h]
  | succ n ih =>
    rw [Function.iterate_succ_apply]
    have hb : bumpCounter false true c = ⟨c.spam, (c.ham + 1) % U32⟩ := rfl
    rw [hb, ih ⟨c.spam, (c.ham + 1) % U32⟩
      (Nat.mod_lt _ (by norm_num [U32]))]
    congr 1
    simp only [show U32 = 4294967296 from rfl]
    omega

/-- The increment for an unrecognized label changes nothing. -/
theorem bump_none_iterate (n : ℕ) (c : Counter) :
    (bumpCounter false false)^[n] c = c := by
  induction n with
  | zero => rfl
  | succ n ih =>
    rw [Function.iterate_succ_apply]
    exact ih

/-- Folding records through `processSample` adds, modulo `2 ^ 32`, the
label-directed occurrence counts of the looked-up token. -/
theorem accCounter_trainFold (tok : String → List String)
    (samples : List Sample) (m : List (String × Counter)) (t : String) :
    (accCounter m t).spam < U32 → (accCounter m t).ham < U32 →
    accCounter (samples.foldl (processSample tok) m) t =
      ⟨((accCounter m t).spam + spamOcc tok samples t) % U32,
       ((accCounter m t).ham + hamOcc tok samples t) % U32⟩ := by
  induction samples generalizing m with
  | nil =>
    intro hs hh
    simp [spamOcc, hamOcc, Nat.mod_eq_of_lt hs, Nat.mod_eq_of_lt hh]
  | cons s rest ih =>
    intro hs hh
    rw [List.foldl_cons]
    have hocc_s : spamOcc tok (s :: rest) t =
        (if s.label = "spam" then (tok s.text).count t else 0) +
          spamOcc tok rest t := by
      simp [spamOcc]
    have hocc_h : hamOcc tok (s :: rest) t =
        (if s.label = "ham" then (tok s.text).count t else 0) +
          hamOcc tok rest t := by
      simp [hamOcc]
    by_cases hsp : s.label = "spam"
    · have hb1 : (s.label == "spam") = true := by rw [hsp]; rfl
      have hb2 : (s.label == "ham") = false := by rw [hsp]; rfl
      have hps : processSample tok m s =
          (tok s.text).foldl
            (fun acc token => updateAssoc acc token (bumpCounter true false))
            m := by
        unfold processSample
        rw [hb1, hb2]
      have hacc : accCounter (processSample tok m s) t =
          ⟨((accCounter m t).spam + (tok s.text).count t) % U32,
            (accCounter m t).ham⟩ := by
        rw [hps, accCounter_foldl_update, bump_spam_iterate _ _ hs]
      have hacc_s : (accCounter (processSample tok m s) t).spam =
          ((accCounter m t).spam + (tok s.text).count t) % U32 := by
        rw [hacc]
      have hacc_h : (accCounter (processSample tok m s) t).ham =
          (accCounter m t).ham := by
        rw [hacc]
      rw [ih _ (by rw [hacc_s]; exact Nat.mod_lt _ (by norm_num [U32]))
        (by rw [hacc_h]; exact hh), hacc_s, hacc_h, hocc_s, hocc_h,
        if_pos hsp, if_neg (by rw [hsp]; decide)]
      congr 1 <;> (simp only [show U32 = 4294967296 from rfl]; omega)
    · by_cases hhm : s.label = "ham"
      · have hb1 : (s.label == "spam") = false := beq_eq_false_iff_ne.mpr hsp
        have hb2 : (s.label == "ham") = true := by rw [hhm]; rfl
        have hps : processSample tok m s =
            (tok s.text).foldl
              (fun acc token =>
                updateAssoc acc token (bumpCounter false true)) m := by
          unfold processSample
          rw [hb1, hb2]
        have hacc : accCounter (processSample tok m s) t =
            ⟨(accCounter m t).spam,
              ((accCounter m t).ham + (tok s.text).count t) % U32⟩ := by
          rw [hps, accCounter_foldl_update, bump_ham_iterate _ _ hh]
        have hacc_s : (accCounter (processSample tok m s) t).spam =
            (accCounter m t).spam := by
          rw [hacc]
        have hacc_h : (accCounter (processSample tok m s) t).ham =
            ((accCounter m t).ham + (tok s.text).count t) % U32 := by
          rw [hacc]
        rw [ih _ (by rw [hacc_s]; exact hs)
          (by rw [hacc_h]; exact Nat.mod_lt _ (by norm_num [U32])),
          hacc_s, hacc_h, hocc_s, hocc_h, if_pos hhm, if_neg hsp]
        congr 1 <;> (simp only [show U32 = 4294967296 from rfl]; omega)
      · have hb1 : (s.label == "spam") = false := beq_eq_false_iff_ne.mpr hsp
        have hb2 : (s.label == "ham") = false := beq_eq_false_iff_ne.mpr hhm
        have hps : processSample tok m s =
            (tok s.text).foldl
              (fun acc token =>
                updateAssoc acc token (bumpCounter false false)) m := by
          unfold processSample
          rw [hb1, hb2]
        have hacc : accCounter (processSample tok m s) t = accCounter m t := by
          rw [hps, accCounter_foldl_update, bump_none_iterate]
        rw [ih _ (by rw [hacc]; exact hs) (by rw [hacc]; exact hh), hacc,
          hocc_s, hocc_h, if_neg hsp, if_neg hhm]
        congr 1 <;> (simp only [show U32 = 4294967296 from rfl]; omega)

/-- C7: a training sample whose label is neither "spam" nor "ham" still
inserts every one of its tokens into the accumulator key set — a
previously unseen token enters with the default zero counter — but leaves
every token's spam and ham counts unchanged. -/
theorem unlabeled_sample_inert (tok : String → List String)
    (m : List (String × Counter)) (s : Sample)
    (h1 : s.label ≠ "spam") (h2 : s.label ≠ "ham") :
    (∀ t ∈ tok s.text, t ∈ keysOf (processSample tok m s)) ∧
    (∀ t, accCounter (processSample tok m s) t = accCounter m t) ∧
    (∀ t, t ∉ keysOf m → t ∈ tok s.text →
      lookupKey (processSample tok m s) t = some ⟨0, 0⟩) := by
  have hb1 : (s.label == "spam") = false := beq_eq_false_iff_ne.mpr h1
  have hb2 : (s.label == "ham") = false := beq_eq_false_iff_ne.mpr h2
  have hps : processSample tok m s =
      (tok s.text).foldl
        (fun acc token => updateAssoc acc token (bumpCounter false false))
        m := by
    unfold processSample
    rw [hb1, hb2]
  refine ⟨?_, ?_, ?_⟩
  · intro t ht
    rw [hps]
    exact mem_keysOf_foldl_update _ _ _ _ (Or.inr ht)
  · intro t
    rw [hps, accCounter_foldl_update, bump_none_iterate]
  · intro t hnm ht
    have hmem : t ∈ keysOf (processSample tok m s) := by
      rw [hps]
      exact mem_keysOf_foldl_update _ _ _ _ (Or.inr ht)
    have hacc : accCounter (processSample tok m s) t = accCounter m t := by
      rw [hps, accCounter_foldl_update, bump_none_iterate]
    cases hl : lookupKey (processSample tok m s) t with
    | none => exact absurd hmem ((lookupKey_eq_none _ _).mp hl)
    | some v =>
      have hveq : v = accCounter m t := by
        have hx := hacc
        unfold accCounter at hx
        rw [hl] at hx
        simpa using hx
      have hdm : accCounter m t = Counter.default := by
        unfold accCounter
        rw [(lookupKey_eq_none m t).mpr hnm]
        rfl
      rw [hveq, hdm]
      rfl

/-- Sample with an unrecognized label, for the C7 witness. -/
def inertSample : Sample := ⟨"free stuff", "noise"⟩

/-- Witness for `unlabeled_sample_inert`: processing an unrecognized-label
sample from the empty accumulator adds its tokens with zero counters. -/
theorem unlabeled_sample_inert_witness :
    inertSample.label ≠ "spam" ∧ inertSample.label ≠ "ham" ∧
    ((∀ t ∈ (fun _ : String => ["free", "stuff"]) inertSample.text,
        t ∈ keysOf
          (processSample (fun _ => ["free", "stuff"]) [] inertSample)) ∧
     (∀ t, accCounter
        (processSample (fun _ => ["free", "stuff"]) [] inertSample) t =
          accCounter [] t) ∧
     (∀ t, t ∉ keysOf ([] : List (String × Counter)) →
        t ∈ (fun _ : String => ["free", "stuff"]) inertSample.text →
        lookupKey (processSample (fun _ => ["free", "stuff"]) [] inertSample)
          t = some ⟨0, 0⟩)) := by
  have h1 : inertSample.label ≠ "spam" := by decide
  have h2 : inertSample.label ≠ "ham" := by decide
  exact ⟨h1, h2,
    unlabeled_sample_inert (fun _ => ["free", "stuff"]) [] inertSample h1 h2⟩

/-- Value-mapping keeps the key list. -/
theorem keysOf_map_values {α β : Type} (m : List (String × α)) (g : α → β) :
    keysOf (m.map (fun e => (e.1, g e.2))) = keysOf m := by
  simp [keysOf, List.map_map, Function.comp]

/-- Lookup is invariant under permutation when keys are duplicate-free. -/
theorem lookupKey_perm {α : Type} {m₁ m₂ : List (String × α)}
    (hp : m₁.Perm m₂) :
    (keysOf m₁).Nodup → ∀ t, lookupKey m₁ t = lookupKey m₂ t := by
  induction hp with
  | nil =>
    intro _ _
    rfl
  | cons e hp ih =>
    intro hn t
    obtain ⟨q, v⟩ := e
    show (if q = t then some v else lookupKey _ t) =
      (if q = t then some v else lookupKey _ t)
    by_cases h : q = t
    · rw [if_pos h, if_pos h]
    · rw [if_neg h, if_neg h]
      have hn' : (keysOf _).Nodup := (List.nodup_cons.mp hn).2
      exact ih hn' t
  | swap x y l =>
    intro hn t
    obtain ⟨b, vb⟩ := x
    obtain ⟨a, va⟩ := y
    have hn' : (a :: b :: keysOf l).Nodup := hn
    have hab : a ≠ b := by
      intro h
      exact (List.nodup_cons.mp hn').1 (h ▸ List.mem_cons_self b (keysOf l))
    show (if a = t then some va else
        if b = t then some vb else lookupKey l t) =
      (if b = t then some vb else
        if a = t then some va else lookupKey l t)
    by_cases ha : a = t
    · have hbt : ¬ b = t := fun hb => hab (ha.trans hb.symm)
      rw [if_pos ha, if_neg hbt, if_pos ha]
    · by_cases hb : b = t
      · rw [if_neg ha, if_pos hb, if_pos hb]
      · rw [if_neg ha, if_neg hb, if_neg hb, if_neg ha]
  | trans h1 h2 ih1 ih2 =>
    intro hn t
    rw [ih1 hn t]
    exact ih2 ((h1.map Prod.fst).nodup hn) t

/-- Keys survive loading a prior store. -/
theorem keysOf_loadPrior (p : List (String × ℕ)) :
    keysOf (loadPrior p) = keysOf p :=
  keysOf_map_values p Counter.fromU64

/-- Loading a prior store reproduces exactly the stored counters. -/
theorem accCounter_loadPrior (p : List (String × ℕ)) (t : String) :
    accCounter (loadPrior p) t = storeCounter p t := by
  unfold accCounter loadPrior storeCounter
  rw [lookupKey_map]

/-- Stored counters always have in-range fields (they are unpacked with
the `as u32` casts). -/
theorem storeCounter_fields_lt (p : List (String × ℕ)) (t : String) :
    (storeCounter p t).spam < U32 ∧ (storeCounter p t).ham < U32 := by
  have hU : 0 < U32 := by norm_num [U32]
  unfold storeCounter
  cases hl : lookupKey p t with
  | none =>
    constructor <;> simp [Counter.default, hU]
  | some v =>
    constructor <;>
      simp [Counter.fromU64, Nat.mod_lt _ hU]

/-- The accumulation pass keeps keys duplicate-free. -/
theorem keysOf_trainCounters_nodup (tok : String → List String)
    (prior : List (String × ℕ)) (samples : List Sample)
    (h : (keysOf prior).Nodup) :
    (keysOf (trainCounters tok prior samples)).Nodup := by
  have hstep : ∀ (ss : List Sample) (m : List (String × Counter)),
      (keysOf m).Nodup →
      (keysOf (ss.foldl (processSample tok) m)).Nodup := by
    intro ss
    induction ss with
    | nil => exact fun m h => h
    | cons s rest ih =>
      intro m hm
      rw [List.foldl_cons]
      apply ih
      unfold processSample
      exact keysOf_foldl_update_nodup _ _ _ hm
  exact hstep samples _ (by rw [keysOf_loadPrior]; exact h)

/-- Sorting and packing keep keys duplicate-free. -/
theorem keysOf_buildStore_nodup (m : List (String × Counter))
    (h : (keysOf m).Nodup) : (keysOf (buildStore m)).Nodup := by
  unfold buildStore
  rw [keysOf_map_values]
  exact ((List.mergeSort_perm m _).symm.map Prod.fst).nodup h

/-- Reading the built store returns exactly the accumulated counter. -/
theorem storeCounter_buildStore (m : List (String × Counter))
    (hn : (keysOf m).Nodup) (t : String)
    (hs : (accCounter m t).spam < U32) (hh : (accCounter m t).ham < U32) :
    storeCounter (buildStore m) t = accCounter m t := by
  unfold storeCounter buildStore
  rw [lookupKey_map]
  have hperm : (m.mergeSort (fun a b => decide (a.1 ≤ b.1))).Perm m :=
    List.mergeSort_perm m _
  have hn2 : (keysOf (m.mergeSort (fun a b => decide (a.1 ≤ b.1)))).Nodup :=
    (hperm.symm.map Prod.fst).nodup hn
  rw [lookupKey_perm hperm hn2 t]
  cases hl : lookupKey m t with
  | none =>
    unfold accCounter
    rw [hl]
    rfl
  | some c =>
    unfold accCounter at hs hh ⊢
    rw [hl] at hs hh ⊢
    simp only [Option.getD_some, Option.map_some'] at hs hh ⊢
    exact Counter.fromU64_toU64 c hs hh

/-- C8: training a dataset from an empty store and then training the same
dataset once more with the produced store as the prior doubles every
token's counter (absent `u32` overflow); in general, the merge path adds
the prior store's counter to the counts accumulated from the data, modulo
`2 ^ 32`. -/
theorem train_merge_doubles (tok : String → List String)
    (samples : List Sample) (t : String)
    (h2s : 2 * spamOcc tok samples t < U32)
    (h2h : 2 * hamOcc tok samples t < U32) :
    (∀ prior : List (String × ℕ), (keysOf prior).Nodup →
      storeCounter (trainRun tok prior samples) t =
        ⟨((storeCounter prior t).spam + spamOcc tok samples t) % U32,
         ((storeCounter prior t).ham + hamOcc tok samples t) % U32⟩) ∧
    storeCounter (trainRun tok [] samples) t =
      ⟨spamOcc tok samples t, hamOcc tok samples t⟩ ∧
    storeCounter (trainRun tok (trainRun tok [] samples) samples) t =
      ⟨2 * (storeCounter (trainRun tok [] samples) t).spam,
       2 * (storeCounter (trainRun tok [] samples) t).ham⟩ := by
  have hU : 0 < U32 := by norm_num [U32]
  have hgen : ∀ prior : List (String × ℕ), (keysOf prior).Nodup →
      storeCounter (trainRun tok prior samples) t =
        ⟨((storeCounter prior t).spam + spamOcc tok samples t) % U32,
         ((storeCounter prior t).ham + hamOcc tok samples t) % U32⟩ := by
    intro prior hn
    have hflt := storeCounter_fields_lt prior t
    have hlp : accCounter (loadPrior prior) t = storeCounter prior t :=
      accCounter_loadPrior prior t
    have hacc := accCounter_trainFold tok samples (loadPrior prior) t
      (by rw [hlp]; exact hflt.1) (by rw [hlp]; exact hflt.2)
    rw [hlp] at hacc
    have hnodup : (keysOf (trainCounters tok prior samples)).Nodup :=
      keysOf_trainCounters_nodup tok prior samples hn
    have hf1 : (accCounter (trainCounters tok prior samples) t).spam <
        U32 := by
      rw [show trainCounters tok prior samples =
        samples.foldl (processSample tok) (loadPrior prior) from rfl, hacc]
      exact Nat.mod_lt _ hU
    have hf2 : (accCounter (trainCounters tok prior samples) t).ham <
        U32 := by
      rw [show trainCounters tok prior samples =
        samples.foldl (processSample tok) (loadPrior prior) from rfl, hacc]
      exact Nat.mod_lt _ hU
    unfold trainRun
    rw [storeCounter_buildStore (trainCounters tok prior samples) hnodup t
      hf1 hf2]
    exact hacc
  have hsingle : storeCounter (trainRun tok [] samples) t =
      ⟨spamOcc tok samples t, hamOcc tok samples t⟩ := by
    rw [hgen [] (by simp [keysOf])]
    rw [show storeCounter ([] : List (String × ℕ)) t = ⟨0, 0⟩ from rfl]
    congr 1 <;> (simp only [show U32 = 4294967296 from rfl] at *; omega)
  refine ⟨hgen, hsingle, ?_⟩
  have hnod : (keysOf (trainRun tok [] samples)).Nodup := by
    unfold trainRun
    exact keysOf_buildStore_nodup _
      (keysOf_trainCounters_nodup tok [] samples (by simp [keysOf]))
  rw [hgen (trainRun tok [] samples) hnod, hsingle]
  dsimp only
  congr 1 <;> (simp only [show U32 = 4294967296 from rfl] at *; omega)

/-- Tokenizer for the C8 witness: every text is one token. -/
def mergeTok : String → List String := fun s => [s]

/-- Dataset for the C8 witness: one spam and one ham record for the same
token. -/
def mergeSamples : List Sample := [⟨"buy", "spam"⟩, ⟨"buy", "ham"⟩]

/-- Witness for `train_merge_doubles` on a two-record dataset. -/
theorem train_merge_doubles_witness :
    2 * spamOcc mergeTok mergeSamples "buy" < U32 ∧
    2 * hamOcc mergeTok mergeSamples "buy" < U32 ∧
    ((∀ prior : List (String × ℕ), (keysOf prior).Nodup →
      storeCounter (trainRun mergeTok prior mergeSamples) "buy" =
        ⟨((storeCounter prior "buy").spam +
            spamOcc mergeTok mergeSamples "buy") % U32,
         ((storeCounter prior "buy").ham +
            hamOcc mergeTok mergeSamples "buy") % U32⟩) ∧
    storeCounter (trainRun mergeTok [] mergeSamples) "buy" =
      ⟨spamOcc mergeTok mergeSamples "buy",
       hamOcc mergeTok mergeSamples "buy"⟩ ∧
    storeCounter
        (trainRun mergeTok (trainRun mergeTok [] mergeSamples) mergeSamples)
        "buy" =
      ⟨2 * (storeCounter (trainRun mergeTok [] mergeSamples) "buy").spam,
       2 * (storeCounter (trainRun mergeTok [] mergeSamples) "buy").ham⟩) :=
  ⟨by decide, by decide,
    train_merge_doubles mergeTok mergeSamples "buy" (by decide) (by decide)⟩

/-! ### Serving boundary (`src/lib.rs` and `src/helpers/mod.rs`)

The JSON string parser (`serde_json`) and the numeric parser
(`str::parse::<f64>`) are external and enter as parameters `parseJson`
and `parseNum`; the typed deserialisation into a string-to-string map is
modelled on parsed `Json` trees. -/

/-- Default spam threshold, `SPAM_TRESHOLD = 0.80`. -/
def SPAM_TRESHOLD : ℚ := 4/5

/-- Default Laplace smoothing factor, `DEFAULT_ALPHA = 1.0`. -/
def DEFAULT_ALPHA : ℚ := 1

/-- Model of a parsed JSON value. -/
inductive Json where
  | str (s : String)
  | num (q : ℚ)
  | bool (b : Bool)
  | null
  | arr (xs : List Json)
  | obj (fields : List (String × Json))

/-- Typed deserialisation of object fields into string values, per the
`serde` contract for `HashMap<String, String>`: every field value must be
a JSON string, otherwise the whole deserialisation fails. -/
def decodeStringFields :
    List (String × Json) → Except String (List (String × String))
  | [] => .ok []
  | (k, .str s) :: rest =>
    (decodeStringFields rest).map (fun l => (k, s) :: l)
  | (k, _) :: _ => .error ("invalid type for field " ++ k)

/-- Typed deserialisation of a JSON value into a string-to-string map:
succeeds exactly on objects whose field values are all strings. -/
def decodeStringMap : Json → Except String (List (String × String))
  | .obj fields => decodeStringFields fields
  | _ => .error "invalid type: expected a map"

/-- Rust `Settings` of `src/lib.rs`. -/
structure Settings where
  spam_threshold : ℚ
  laplace_smoothing_factor : ℚ
  deriving Repr, DecidableEq

/-- Rust `Settings::new`: read the `x-edgee-component-settings` header (missing
header is an error), deserialise it as a string-to-string map (failure is
an error), then parse each field numerically, silently falling back to the
default when the field is absent or does not parse. -/
def settingsNew (parseJson : String → Except String Json)
    (parseNum : String → Option ℚ)
    (headers : List (String × String)) : Except String Settings :=
  match lookupKey headers "x-edgee-component-settings" with
  | none =>
    .error "Missing \u0027x-edgee-component-settings\u0027 header"
  | some value =>
    match (parseJson value).bind decodeStringMap with
    | .error e => .error e
    | .ok data =>
      let spam_threshold :=
        ((lookupKey data "spam_threshold").bind parseNum).getD SPAM_TRESHOLD
      let laplace_smoothing_factor :=
        ((lookupKey data "laplace_smoothing_factor").bind parseNum).getD
          DEFAULT_ALPHA
      .ok ⟨spam_threshold, laplace_smoothing_factor⟩

/-- Request body `{"input": string}`. -/
structure Input where
  input : String
  deriving Repr, DecidableEq

/-- Response body of a successful classification. -/
structure Output where
  text : String
  spam_probability : ℚ
  ham_probability : ℚ
  is_spam : Bool
  confidence : ℚ

/-- Serialisation of `Output` per its serde derive. -/
def outputJson (o : Output) : Json :=
  .obj [("text", .str o.text),
        ("spam_probability", .num o.spam_probability),
        ("ham_probability", .num o.ham_probability),
        ("is_spam", .bool o.is_spam),
        ("confidence", .num o.confidence)]

/-- Body shape of `json_error_response`. -/
def errorJson (msg : String) : Json := .obj [("error", .str msg)]

/-- An HTTP-style response: status code and JSON body. -/
structure HttpResponse where
  status : ℕ
  body : Json

/-- The request handler `handle`: build `Settings` from the headers
(propagating its error), configure a classifier over the embedded model
with the requested threshold and alpha, and classify the input. -/
def handle (tok : String → List String)
    (parseJson : String → Except String Json) (parseNum : String → Option ℚ)
    (model : List (String × ℕ)) (stats : ClassifierStats)
    (headers : List (String × String)) (i : Input) :
    Except String HttpResponse :=
  match settingsNew parseJson parseNum headers with
  | .error e => .error e
  | .ok settings =>
    let c : NaiveBayesClassifier :=
      ⟨model, stats, settings.laplace_smoothing_factor,
        settings.spam_threshold⟩
    let result := NaiveBayesClassifier.classify_detailed tok c i.input
    .ok ⟨200, outputJson ⟨i.input, result.spam_probability,
      result.ham_probability, result.is_spam, result.confidence⟩⟩

/-- The `run` wrapper of `src/helpers/mod.rs`: a body that fails to parse
yields a 400 response with `{"error": message}`; a handler error yields a
500 response with the same shape; otherwise the handler response goes
out. -/
def run (tok : String → List String)
    (parseJson : String → Except String Json) (parseNum : String → Option ℚ)
    (model : List (String × ℕ)) (stats : ClassifierStats)
    (headers : List (String × String)) (body : Except String Input) :
    HttpResponse :=
  match body with
  | .error err => ⟨400, errorJson err⟩
  | .ok i =>
    match handle tok parseJson parseNum model stats headers i with
    | .error err => ⟨500, errorJson err⟩
    | .ok res => res

/-- A field holding a JSON number fails the whole string-map
deserialisation. -/
theorem decodeStringFields_num_error (fields : List (String × Json))
    (k : String) (q : ℚ) (hmem : (k, Json.num q) ∈ fields) :
    ∃ e, decodeStringFields fields = .error e := by
  induction fields with
  | nil => cases hmem
  | cons f rest ih =>
    obtain ⟨k', v⟩ := f
    rcases List.mem_cons.mp hmem with he | hm
    · cases he
      exact ⟨_, rfl⟩
    · cases v with
      | str s =>
        obtain ⟨e, hex⟩ := ih hm
        refine ⟨e, ?_⟩
        show (decodeStringFields rest).map (fun l => (k', s) :: l) = _
        rw [hex]
        rfl
      | num q2 => exact ⟨_, rfl⟩
      | bool b => exact ⟨_, rfl⟩
      | null => exact ⟨_, rfl⟩
      | arr xs => exact ⟨_, rfl⟩
      | obj fs => exact ⟨_, rfl⟩

/-- All-string object fields deserialise to exactly the underlying
string-to-string map. -/
theorem decodeStringFields_all_str (data : List (String × String)) :
    decodeStringFields (data.map (fun e => (e.1, Json.str e.2))) =
      .ok data := by
  induction data with
  | nil => rfl
  | cons e rest ih =>
    obtain ⟨k, s⟩ := e
    show (decodeStringFields (rest.map _)).map (fun l => (k, s) :: l) = _
    rw [ih]
    rfl

/-! ### Claims C9 and C10 -/

/-- Degenerate tokenizer for boundary facts. -/
def tok0 : String → List String := fun _ => []

/-- Degenerate JSON parser for boundary facts. -/
def pj0 : String → Except String Json := fun _ => .error "unused"

/-- Degenerate numeric parser for boundary facts. -/
def pn0 : String → Option ℚ := fun _ => none

/-- Zero statistics for boundary facts. -/
def stats0 : ClassifierStats := ⟨0, 0, 0, 0⟩

/-- Counterexample to C9 as stated: with the settings header entirely
missing, the boundary answers with the server error status 500 — not with
a client error (4xx) response as the claim asserts. -/
theorem missing_header_is_server_error :
    (run tok0 pj0 pn0 [] stats0 [] (.ok ⟨"hello"⟩)).status = 500 ∧
    ¬ (400 ≤ (run tok0 pj0 pn0 [] stats0 [] (.ok ⟨"hello"⟩)).status ∧
        (run tok0 pj0 pn0 [] stats0 [] (.ok ⟨"hello"⟩)).status < 500) := by
  refine ⟨rfl, ?_⟩
  rw [show (run tok0 pj0 pn0 [] stats0 [] (.ok ⟨"hello"⟩)).status = 500
    from rfl]
  omega

/-- C9 (amended): an entirely missing settings header makes the handler
error, and the boundary answers a server error response (status 500)
carrying the error body; a present settings value whose individual
numeric fields are absent or unparsable yields the defaults
`spam_threshold = 0.80` and `laplace_smoothing_factor = 1.0` without
erroring. -/
theorem settings_error_paths (tok : String → List String)
    (pj : String → Except String Json) (pn : String → Option ℚ)
    (model : List (String × ℕ)) (stats : ClassifierStats)
    (headers : List (String × String)) (i : Input) :
    (lookupKey headers "x-edgee-component-settings" = none →
      run tok pj pn model stats headers (.ok i) =
        ⟨500, errorJson
          "Missing \u0027x-edgee-component-settings\u0027 header"⟩) ∧
    (∀ (v : String) (data : List (String × String)),
      lookupKey headers "x-edgee-component-settings" = some v →
      (pj v).bind decodeStringMap = .ok data →
      (lookupKey data "spam_threshold").bind pn = none →
      (lookupKey data "laplace_smoothing_factor").bind pn = none →
      settingsNew pj pn headers = .ok ⟨SPAM_TRESHOLD, DEFAULT_ALPHA⟩) := by
  constructor
  · intro hm
    unfold run handle settingsNew
    rw [hm]
  · intro v data hv hd h1 h2
    unfold settingsNew
    rw [hv]
    dsimp only
    rw [hd]
    dsimp only
    rw [h1, h2]
    rfl

/-- Headers for the C9 witness: settings present but empty. -/
def emptySettingsHeaders : List (String × String) :=
  [("x-edgee-component-settings", "{}")]

/-- JSON parser for the C9 witness: the empty object. -/
def emptyObjParser : String → Except String Json := fun _ => .ok (.obj [])

/-- Witness for `settings_error_paths`: the missing-header 500 response on
an empty header list, and the silent defaults on an empty settings
object. -/
theorem settings_error_paths_witness :
    lookupKey ([] : List (String × String)) "x-edgee-component-settings" =
      none ∧
    run tok0 pj0 pn0 [] stats0 [] (.ok ⟨"hello"⟩) =
      ⟨500, errorJson
        "Missing \u0027x-edgee-component-settings\u0027 header"⟩ ∧
    settingsNew emptyObjParser pn0 emptySettingsHeaders =
      .ok ⟨SPAM_TRESHOLD, DEFAULT_ALPHA⟩ := by
  refine ⟨rfl, ?_, ?_⟩
  · exact (settings_error_paths tok0 pj0 pn0 [] stats0 [] ⟨"hello"⟩).1 rfl
  · exact (settings_error_paths tok0 emptyObjParser pn0 [] stats0
      emptySettingsHeaders ⟨"hello"⟩).2 "{}" [] rfl rfl rfl rfl

/-- C10: the settings header value must deserialise as a JSON object all
of whose field values are strings: a field carrying a JSON number (such as
a bare `0.5`) fails the whole settings parse and `Settings::new` returns
an error instead of falling back to the default for that field; the
per-field default fallback applies only to string values that fail
numeric parsing. -/
theorem settings_reject_non_string (pj : String → Except String Json)
    (pn : String → Option ℚ) (headers : List (String × String))
    (v : String) :
    (∀ (fields : List (String × Json)) (k : String) (q : ℚ),
      lookupKey headers "x-edgee-component-settings" = some v →
      pj v = .ok (.obj fields) →
      (k, Json.num q) ∈ fields →
      ∃ e, settingsNew pj pn headers = .error e) ∧
    (∀ data : List (String × String),
      lookupKey headers "x-edgee-component-settings" = some v →
      pj v = .ok (.obj (data.map (fun e => (e.1, Json.str e.2)))) →
      settingsNew pj pn headers = .ok
        ⟨((lookupKey data "spam_threshold").bind pn).getD SPAM_TRESHOLD,
         ((lookupKey data "laplace_smoothing_factor").bind pn).getD
           DEFAULT_ALPHA⟩) := by
  constructor
  · intro fields k q hv hpj hmem
    obtain ⟨e, he⟩ := decodeStringFields_num_error fields k q hmem
    refine ⟨e, ?_⟩
    unfold settingsNew
    rw [hv]
    dsimp only
    have hbind : (pj v).bind decodeStringMap = .error e := by
      rw [hpj]
      show decodeStringMap (.obj fields) = .error e
      exact he
    rw [hbind]
  · intro data hv hpj
    unfold settingsNew
    rw [hv]
    dsimp only
    have hbind : (pj v).bind decodeStringMap = .ok data := by
      rw [hpj]
      show decodeStringMap (.obj _) = _
      exact decodeStringFields_all_str data
    rw [hbind]

/-- Header list carrying a numeric (non-string) settings field, for the
C10 witness. -/
def numFieldHeaders : List (String × String) :=
  [("x-edgee-component-settings", "\x7b\"spam_threshold\": 0.5\x7d")]

/-- JSON parser for the C10 witness: the object with one numeric field. -/
def numFieldParser : String → Except String Json :=
  fun _ => .ok (.obj [("spam_threshold", .num (1/2))])

/-- Witness for `settings_reject_non_string`: a settings object carrying
the JSON number `0.5` makes `Settings::new` error. -/
theorem settings_reject_non_string_witness :
    lookupKey numFieldHeaders "x-edgee-component-settings" =
      some "\x7b\"spam_threshold\": 0.5\x7d" ∧
    numFieldParser "\x7b\"spam_threshold\": 0.5\x7d" =
      .ok (.obj [("spam_threshold", .num (1/2))]) ∧
    (∃ e, settingsNew numFieldParser pn0 numFieldHeaders = .error e) := by
  refine ⟨rfl, rfl, ?_⟩
  exact (settings_reject_non_string numFieldParser pn0 numFieldHeaders
    "\x7b\"spam_threshold\": 0.5\x7d").1
    [("spam_threshold", .num (1/2))] "spam_threshold" (1/2) rfl rfl
    (List.mem_singleton.mpr rfl)

end SpamClassifier
